import Mathlib

/-!
Verification of the Entropy ledger contract (src/entropy/lib.rs).

The contract is a single-instance token ledger written for the ink! smart-contract
framework.  This file gives a shallow embedding of its state-transition logic and
proves the stated properties about it.

Modelling conventions:
* `AccountId` (a 32-byte opaque identity in the source) is modelled as `Nat`;
  the designated all-zero identity `AccountId::from([0x0; 32])` is `nullAccountId = 0`.
* `Balance` and the fee parameters are Rust `u128` values, modelled as `Nat` together
  with checked arithmetic (`cadd`, `csub`, `cmul`): ink! contract builds enable
  overflow checks, so an overflowing or underflowing `u128` operation panics, which
  aborts the whole call before it can return.  A trapped call is therefore modelled
  as `none`; it never produces an `Ok` result and never commits a state change.
  Subtractions that the source performs only under an explicit sufficiency guard are
  written as plain truncated subtraction, which agrees with `u128` subtraction there.
* `StorageHashMap` is modelled as an association list with `mget` (`get` with a
  default, as the source's `unwrap_or`) and `mput` (`insert`, replacing an existing
  binding).
* The ambient caller (`self.env().caller()`) is passed as an explicit first argument
  to every message, and every message returns the contract result together with the
  updated state and the ordered list of emitted events.
* The `TransactionFailed` event carries the error value itself; the source carries
  the `Debug` rendering of the error, which determines the error uniquely.
-/

/-- Size bound of the Rust `u128` type (`Balance`, fee parameters). -/
def U128 : Nat := 2 ^ 128

/-- Checked `u128` addition: `none` models the overflow panic that aborts the call. -/
def cadd (a b : Nat) : Option Nat :=
  if a + b < U128 then some (a + b) else none

/-- Checked `u128` subtraction: `none` models the underflow panic. -/
def csub (a b : Nat) : Option Nat :=
  if b ≤ a then some (a - b) else none

/-- Checked `u128` multiplication: `none` models the overflow panic. -/
def cmul (a b : Nat) : Option Nat :=
  if a * b < U128 then some (a * b) else none

/-- Lookup in an association list with a default value; models
`StorageHashMap::get(..).copied().unwrap_or(d)`. -/
def mget {κ β : Type} [DecidableEq κ] (m : List (κ × β)) (k : κ) (d : β) : β :=
  match m with
  | [] => d
  | (k', v) :: rest => if k' = k then v else mget rest k d

/-- Insert-or-replace in an association list; models `StorageHashMap::insert`. -/
def mput {κ β : Type} [DecidableEq κ] (m : List (κ × β)) (k : κ) (v : β) :
    List (κ × β) :=
  match m with
  | [] => [(k, v)]
  | (k', v') :: rest => if k' = k then (k, v) :: rest else (k', v') :: mput rest k v

/-- Sum of all values stored in an association list (the sum of all balances). -/
def mapSum {κ : Type} (m : List (κ × Nat)) : Nat :=
  (m.map Prod.snd).sum

/-- Account identities; the source's `AccountId` is an opaque 32-byte value. -/
abbrev AccountId : Type := Nat

/-- Models `AccountId::from([0x0; 32])`, the designated null identity. -/
def nullAccountId : AccountId := 0

/-- The contract's error enum (`Error` in src/entropy/lib.rs). -/
inductive Error where
  | PermissionDenied
  | InsufficientBalance
  | InsufficientAllowance
  | AccountNotBlackListed
deriving DecidableEq, Repr

/-- The contract's events, in source order of their declarations. -/
inductive Event where
  | Params (basis_points_rate maximum_fee : Nat)
  | Transfer (from_ to_ : Option AccountId) (value : Nat)
  | Approval (owner spender : AccountId) (value : Nat)
  | Issue (amount : Nat)
  | Redeem (amount : Nat)
  | Privacy (account : AccountId) (is_private : Bool)
  | AddedBlackList (account : AccountId)
  | RemovedBlackList (account : AccountId)
  | DestroyedBlackFunds (account : AccountId) (funds : Nat)
  | TransactionFailed (error : Error)
deriving DecidableEq, Repr

/-- The contract storage (`struct Entropy`). -/
structure Entropy where
  name : String
  symbol : String
  decimals : Nat
  basis_points_rate : Nat
  maximum_fee : Nat
  owner : AccountId
  total_supply : Nat
  balances : List (AccountId × Nat)
  allowances : List ((AccountId × AccountId) × Nat)
  accounts_private : List (AccountId × Bool)
  accounts_blacklisted : List (AccountId × Bool)
deriving DecidableEq, Repr

/-- Result of one message call: the returned `Result<()>`, the updated storage, and
the events emitted during the call, in emission order. -/
abbrev CallResult : Type := Except Error Unit × Entropy × List Event

/-- `construct(initial_supply, name, symbol, decimals)`: the caller becomes owner and
sole holder of the supply; one `Transfer {from: None, ..}` event is emitted. -/
def construct (caller : AccountId) (initial_supply : Nat) (name symbol : String)
    (decimals : Nat) : Entropy × List Event :=
  ({ name := name
     symbol := symbol
     decimals := decimals
     basis_points_rate := 0
     maximum_fee := 0
     owner := caller
     total_supply := initial_supply
     balances := mput [] caller initial_supply
     allowances := []
     accounts_private := []
     accounts_blacklisted := [] },
   [Event.Transfer none (some caller) initial_supply])

namespace Entropy

/-- `balance_of`: 0 for unknown accounts. -/
def balance_of (s : Entropy) (owner : AccountId) : Nat :=
  mget s.balances owner 0

/-- `allowance`: 0 if unset. -/
def allowance (s : Entropy) (owner spender : AccountId) : Nat :=
  mget s.allowances (owner, spender) 0

/-- `is_account_private`: false if unset. -/
def is_account_private (s : Entropy) (account : AccountId) : Bool :=
  mget s.accounts_private account false

/-- `is_account_blacklisted`: false if unset. -/
def is_account_blacklisted (s : Entropy) (account : AccountId) : Bool :=
  mget s.accounts_blacklisted account false

/-- `set_params`: owner-only; clamps the rate to 20 and the cap to 50_000_000. -/
def set_params (s : Entropy) (caller : AccountId) (new_basic_points new_max_fee : Nat) :
    Option CallResult :=
  if caller ≠ s.owner then
    some (Except.error Error.PermissionDenied, s,
      [Event.TransactionFailed Error.PermissionDenied])
  else
    let rate := if new_basic_points > 20 then 20 else new_basic_points
    let cap := if new_max_fee > 50000000 then 50000000 else new_max_fee
    some (Except.ok (), { s with basis_points_rate := rate, maximum_fee := cap },
      [Event.Params rate cap])

/-- `transfer_ownership`: owner-only; assigning the null identity keeps the current
owner.  The source emits no event on the success path. -/
def transfer_ownership (s : Entropy) (caller new_owner : AccountId) :
    Option CallResult :=
  if caller ≠ s.owner then
    some (Except.error Error.PermissionDenied, s,
      [Event.TransactionFailed Error.PermissionDenied])
  else if new_owner ≠ nullAccountId then
    some (Except.ok (), { s with owner := new_owner }, [])
  else
    some (Except.ok (), s, [])

/-- The fee computation of `transfer_from_to` (lines 399-404):
`fee = 0` when the rate is zero, otherwise
`min(value * basis_points_rate / 10000, maximum_fee)`. -/
def compute_fee (value rate cap : Nat) : Option Nat :=
  if rate > 0 then
    match cmul value rate with
    | none => none
    | some init_prod =>
      let init_fee := init_prod / 10000
      some (if init_fee > cap then cap else init_fee)
  else
    some 0

/-- `transfer_from_to`: the internal transfer path shared by `transfer` and
`transfer_from`.  Debits `value` from `from_`, credits `value - fee` to `to`, and
credits the fee to the owner when it is positive, emitting the fee `Transfer` event
before the primary one. -/
def transfer_from_to (s : Entropy) (from_ to_ : AccountId) (value : Nat) :
    Option CallResult :=
  let from_balance := s.balance_of from_
  if from_balance < value then
    some (Except.error Error.InsufficientBalance, s,
      [Event.TransactionFailed Error.InsufficientBalance])
  else
    match compute_fee value s.basis_points_rate s.maximum_fee with
    | none => none
    | some fee =>
      match csub value fee with
      | none => none
      | some send_value =>
        let s1 : Entropy := { s with balances := mput s.balances from_ (from_balance - value) }
        let to_balance := s1.balance_of to_
        match cadd to_balance send_value with
        | none => none
        | some new_to_balance =>
          let s2 : Entropy := { s1 with balances := mput s1.balances to_ new_to_balance }
          if fee > 0 then
            let owner_balance := s2.balance_of s2.owner
            match cadd owner_balance fee with
            | none => none
            | some new_owner_balance =>
              let s3 : Entropy :=
                { s2 with balances := mput s2.balances s2.owner new_owner_balance }
              some (Except.ok (), s3,
                [Event.Transfer (some from_) (some s2.owner) fee,
                 Event.Transfer (some from_) (some to_) send_value])
          else
            some (Except.ok (), s2, [Event.Transfer (some from_) (some to_) send_value])

/-- `transfer`: the caller is the implicit source account. -/
def transfer (s : Entropy) (caller to_ : AccountId) (value : Nat) : Option CallResult :=
  transfer_from_to s caller to_ value

/-- `approve`: unconditionally overwrites the caller's allowance to `spender`. -/
def approve (s : Entropy) (caller spender : AccountId) (value : Nat) :
    Option CallResult :=
  some (Except.ok (), { s with allowances := mput s.allowances (caller, spender) value },
    [Event.Approval caller spender value])

/-- `transfer_from`: checks the caller's allowance from `from_` first, then runs the
transfer path, and only on its success decrements the allowance. -/
def transfer_from (s : Entropy) (caller from_ to_ : AccountId) (value : Nat) :
    Option CallResult :=
  let al := s.allowance from_ caller
  if al < value then
    some (Except.error Error.InsufficientAllowance, s,
      [Event.TransactionFailed Error.InsufficientAllowance])
  else
    match transfer_from_to s from_ to_ value with
    | none => none
    | some (Except.error e, s1, evs) => some (Except.error e, s1, evs)
    | some (Except.ok _, s1, evs) =>
      some (Except.ok (),
        { s1 with allowances := mput s1.allowances (from_, caller) (al - value) },
        evs)

/-- `issue`: owner-only; credits the owner and increases the total supply. -/
def issue (s : Entropy) (caller : AccountId) (value : Nat) : Option CallResult :=
  if caller ≠ s.owner then
    some (Except.error Error.PermissionDenied, s,
      [Event.TransactionFailed Error.PermissionDenied])
  else
    match cadd (s.balance_of s.owner) value with
    | none => none
    | some new_balance =>
      match cadd s.total_supply value with
      | none => none
      | some new_supply =>
        some (Except.ok (),
          { s with balances := mput s.balances s.owner new_balance,
                   total_supply := new_supply },
          [Event.Issue value])

/-- `redeem`: owner-only; debits the owner and decreases the total supply. -/
def redeem (s : Entropy) (caller : AccountId) (value : Nat) : Option CallResult :=
  if caller ≠ s.owner then
    some (Except.error Error.PermissionDenied, s,
      [Event.TransactionFailed Error.PermissionDenied])
  else
    let balance := s.balance_of s.owner
    if balance < value then
      some (Except.error Error.InsufficientBalance, s,
        [Event.TransactionFailed Error.InsufficientBalance])
    else
      match csub s.total_supply value with
      | none => none
      | some new_supply =>
        some (Except.ok (),
          { s with balances := mput s.balances s.owner (balance - value),
                   total_supply := new_supply },
          [Event.Redeem value])

/-- `set_account_private`: owner-only; stores the flag and emits `Privacy`. -/
def set_account_private (s : Entropy) (caller account : AccountId) (is_private : Bool) :
    Option CallResult :=
  if caller ≠ s.owner then
    some (Except.error Error.PermissionDenied, s,
      [Event.TransactionFailed Error.PermissionDenied])
  else
    some (Except.ok (),
      { s with accounts_private := mput s.accounts_private account is_private },
      [Event.Privacy account is_private])

/-- `add_account_to_blacklist`: owner-only; sets the blacklist flag. -/
def add_account_to_blacklist (s : Entropy) (caller account : AccountId) :
    Option CallResult :=
  if caller ≠ s.owner then
    some (Except.error Error.PermissionDenied, s,
      [Event.TransactionFailed Error.PermissionDenied])
  else
    some (Except.ok (),
      { s with accounts_blacklisted := mput s.accounts_blacklisted account true },
      [Event.AddedBlackList account])

/-- `remove_account_from_blacklist`: owner-only; clears the blacklist flag. -/
def remove_account_from_blacklist (s : Entropy) (caller account : AccountId) :
    Option CallResult :=
  if caller ≠ s.owner then
    some (Except.error Error.PermissionDenied, s,
      [Event.TransactionFailed Error.PermissionDenied])
  else
    some (Except.ok (),
      { s with accounts_blacklisted := mput s.accounts_blacklisted account false },
      [Event.RemovedBlackList account])

/-- `destroy_black_funds`: owner-only; zeroes a blacklisted account's balance and
decreases the total supply by the destroyed amount. -/
def destroy_black_funds (s : Entropy) (caller account : AccountId) :
    Option CallResult :=
  if caller ≠ s.owner then
    some (Except.error Error.PermissionDenied, s,
      [Event.TransactionFailed Error.PermissionDenied])
  else if s.is_account_blacklisted account = false then
    some (Except.error Error.AccountNotBlackListed, s,
      [Event.TransactionFailed Error.AccountNotBlackListed])
  else
    let dirty_funds := s.balance_of account
    match csub s.total_supply dirty_funds with
    | none => none
    | some new_supply =>
      some (Except.ok (),
        { s with balances := mput s.balances account 0,
                 total_supply := new_supply },
        [Event.DestroyedBlackFunds account dirty_funds])

end Entropy

/-- One ledger command: a message of the contract together with the caller identity
supplied by the host. -/
inductive Op where
  | transfer (caller to_ : AccountId) (value : Nat)
  | approve (caller spender : AccountId) (value : Nat)
  | transfer_from (caller from_ to_ : AccountId) (value : Nat)
  | issue (caller : AccountId) (value : Nat)
  | redeem (caller : AccountId) (value : Nat)
  | set_params (caller : AccountId) (new_basic_points new_max_fee : Nat)
  | transfer_ownership (caller new_owner : AccountId)
  | set_account_private (caller account : AccountId) (is_private : Bool)
  | add_account_to_blacklist (caller account : AccountId)
  | remove_account_from_blacklist (caller account : AccountId)
  | destroy_black_funds (caller account : AccountId)
deriving DecidableEq, Repr

/-- Dispatch one command to the corresponding contract message. -/
def step (s : Entropy) : Op → Option CallResult
  | Op.transfer caller to_ value => s.transfer caller to_ value
  | Op.approve caller spender value => s.approve caller spender value
  | Op.transfer_from caller from_ to_ value => s.transfer_from caller from_ to_ value
  | Op.issue caller value => s.issue caller value
  | Op.redeem caller value => s.redeem caller value
  | Op.set_params caller a b => s.set_params caller a b
  | Op.transfer_ownership caller new_owner => s.transfer_ownership caller new_owner
  | Op.set_account_private caller account p => s.set_account_private caller account p
  | Op.add_account_to_blacklist caller account => s.add_account_to_blacklist caller account
  | Op.remove_account_from_blacklist caller account =>
      s.remove_account_from_blacklist caller account
  | Op.destroy_black_funds caller account => s.destroy_black_funds caller account

/-- A command is well formed when its numeric arguments fit in `u128`, as the
source's `Balance` typing imposes. -/
def Op.wf : Op → Prop
  | Op.transfer _ _ value => value < U128
  | Op.approve _ _ value => value < U128
  | Op.transfer_from _ _ _ value => value < U128
  | Op.issue _ value => value < U128
  | Op.redeem _ value => value < U128
  | Op.set_params _ a b => a < U128 ∧ b < U128
  | Op.transfer_ownership _ _ => True
  | Op.set_account_private _ _ _ => True
  | Op.add_account_to_blacklist _ _ => True
  | Op.remove_account_from_blacklist _ _ => True
  | Op.destroy_black_funds _ _ => True

instance (op : Op) : Decidable op.wf := by
  cases op <;> simp only [Op.wf] <;> infer_instance

/-- States reachable from a constructed ledger by accepted (`Ok`-returning)
operations. -/
inductive Reachable : Entropy → Prop where
  | constructed (caller : AccountId) (initial_supply : Nat) (name symbol : String)
      (decimals : Nat) (h : initial_supply < U128) :
      Reachable (construct caller initial_supply name symbol decimals).1
  | step_ok {s s' : Entropy} {op : Op} {evs : List Event} (hs : Reachable s)
      (hop : op.wf) (h : step s op = some (Except.ok (), s', evs)) :
      Reachable s'

/-! ### Basic lemmas about the checked arithmetic and the association-list maps -/

theorem U128_pos : 0 < U128 :=
  Nat.pos_pow_of_pos 128 (by omega)

theorem cadd_eq_some {a b c : Nat} (h : cadd a b = some c) :
    c = a + b ∧ a + b < U128 := by
  unfold cadd at h
  split at h
  · exact ⟨(Option.some.injEq _ _).mp h |>.symm, by assumption⟩
  · cases h

theorem csub_eq_some {a b c : Nat} (h : csub a b = some c) :
    c = a - b ∧ b ≤ a := by
  unfold csub at h
  split at h
  · exact ⟨(Option.some.injEq _ _).mp h |>.symm, by assumption⟩
  · cases h

theorem cmul_eq_some {a b c : Nat} (h : cmul a b = some c) :
    c = a * b ∧ a * b < U128 := by
  unfold cmul at h
  split at h
  · exact ⟨(Option.some.injEq _ _).mp h |>.symm, by assumption⟩
  · cases h

theorem mget_mput_self {κ β : Type} [DecidableEq κ] (m : List (κ × β)) (k : κ)
    (v d : β) : mget (mput m k v) k d = v := by
  induction m with
  | nil => simp [mget, mput]
  | cons p rest ih =>
    obtain ⟨k', v'⟩ := p
    by_cases h : k' = k
    · simp [mput, mget, h]
    · simp [mput, mget, h, ih]

theorem mapSum_cons {κ : Type} (p : κ × Nat) (rest : List (κ × Nat)) :
    mapSum (p :: rest) = p.2 + mapSum rest := by
  simp [mapSum]

theorem mapSum_mput {κ : Type} [DecidableEq κ] (m : List (κ × Nat)) (k : κ) (v : Nat) :
    mapSum (mput m k v) + mget m k 0 = mapSum m + v := by
  induction m with
  | nil => simp [mput, mget, mapSum]
  | cons p rest ih =>
    obtain ⟨k', v'⟩ := p
    by_cases h : k' = k
    · simp only [mput, mget, if_pos h, mapSum_cons]
      omega
    · simp only [mput, mget, if_neg h, mapSum_cons]
      omega

theorem mget_le_mapSum {κ : Type} [DecidableEq κ] (m : List (κ × Nat)) (k : κ) :
    mget m k 0 ≤ mapSum m := by
  induction m with
  | nil => simp [mget, mapSum]
  | cons p rest ih =>
    obtain ⟨k', v'⟩ := p
    by_cases h : k' = k
    · simp only [mget, if_pos h, mapSum_cons]
      omega
    · simp only [mget, if_neg h, mapSum_cons]
      omega

theorem mem_mput {κ β : Type} [DecidableEq κ] {m : List (κ × β)} {k : κ} {v : β}
    {p : κ × β} (h : p ∈ mput m k v) : p = (k, v) ∨ p ∈ m := by
  induction m with
  | nil => simp [mput] at h; simp [h]
  | cons q rest ih =>
    obtain ⟨k', v'⟩ := q
    by_cases hk : k' = k
    · simp only [mput, if_pos hk, List.mem_cons] at h
      rcases h with h | h
      · exact Or.inl h
      · exact Or.inr (List.mem_cons_of_mem _ h)
    · simp only [mput, if_neg hk, List.mem_cons] at h
      rcases h with h | h
      · exact Or.inr (by simp [h])
      · rcases ih h with h' | h'
        · exact Or.inl h'
        · exact Or.inr (List.mem_cons_of_mem _ h')

theorem mget_lt_of_forall {κ : Type} [DecidableEq κ] {m : List (κ × Nat)} {k : κ}
    {B : Nat} (hB : 0 < B) (h : ∀ p ∈ m, p.2 < B) : mget m k 0 < B := by
  induction m with
  | nil => simpa [mget] using hB
  | cons p rest ih =>
    obtain ⟨k', v'⟩ := p
    by_cases hk : k' = k
    · simp only [mget, if_pos hk]
      exact h (k', v') (List.mem_cons_self _ _)
    · simp only [mget, if_neg hk]
      exact ih fun q hq => h q (List.mem_cons_of_mem _ hq)

/-! ### The ledger well-formedness invariant -/

/-- Invariant carried by every reachable ledger state: the fee parameters respect
their documented ceilings, every stored `u128` value is representable, and the
total supply equals the sum of all balances. -/
structure WF (s : Entropy) : Prop where
  rate_le : s.basis_points_rate ≤ 20
  cap_le : s.maximum_fee ≤ 50000000
  supply_lt : s.total_supply < U128
  bal_lt : ∀ p ∈ s.balances, p.2 < U128
  allow_lt : ∀ p ∈ s.allowances, p.2 < U128
  conserve : s.total_supply = mapSum s.balances

theorem construct_WF {caller : AccountId} {initial_supply : Nat} {name symbol : String}
    {decimals : Nat} (h : initial_supply < U128) :
    WF (construct caller initial_supply name symbol decimals).1 := by
  constructor
  · simp [construct]
  · simp [construct]
  · simpa [construct] using h
  · intro p hp
    simp only [construct, mput] at hp
    simp only [List.mem_singleton] at hp
    simp [hp, h]
  · intro p hp
    simp [construct] at hp
  · simp [construct, mput, mapSum]

/-! ### Fee bound -/

theorem compute_fee_le {value rate cap fee : Nat} (hrate : rate ≤ 20)
    (h : Entropy.compute_fee value rate cap = some fee) :
    fee ≤ value ∧ fee ≤ cap := by
  unfold Entropy.compute_fee at h
  by_cases hr : rate > 0
  · rw [if_pos hr] at h
    cases hm : cmul value rate with
    | none => simp [hm] at h
    | some prod =>
      simp only [hm, Option.some.injEq] at h
      obtain ⟨hp, -⟩ := cmul_eq_some hm
      subst hp
      have h1 : value * rate / 10000 ≤ value := by
        calc value * rate / 10000
            ≤ value * 10000 / 10000 :=
              Nat.div_le_div_right (Nat.mul_le_mul_left value (by omega))
          _ = value := Nat.mul_div_cancel value (by omega)
      by_cases hc : value * rate / 10000 > cap
      · rw [if_pos hc] at h
        omega
      · rw [if_neg hc] at h
        omega
  · rw [if_neg hr] at h
    simp only [Option.some.injEq] at h
    omega

/-! ### Preservation of the invariant by each operation -/

theorem transfer_from_to_WF {s : Entropy} {from_ to_ : AccountId} {value : Nat}
    {r : Except Error Unit} {s' : Entropy} {evs : List Event} (hWF : WF s)
    (h : Entropy.transfer_from_to s from_ to_ value = some (r, s', evs)) : WF s' := by
  have hfb : mget s.balances from_ 0 < U128 :=
    mget_lt_of_forall U128_pos hWF.bal_lt
  simp only [Entropy.transfer_from_to, Entropy.balance_of] at h
  split at h
  · -- InsufficientBalance: the state is returned unchanged
    simp only [Option.some.injEq, Prod.mk.injEq] at h
    obtain ⟨-, hs, -⟩ := h
    subst hs
    exact hWF
  · rename_i hb
    split at h
    · simp at h
    · rename_i fee hfee
      split at h
      · simp at h
      · rename_i send_value hsend
        obtain ⟨hsv, hfv⟩ := csub_eq_some hsend
        split at h
        · simp at h
        · rename_i new_to hto
          obtain ⟨hnt, hntlt⟩ := cadd_eq_some hto
          split at h
          · rename_i hfpos
            split at h
            · simp at h
            · rename_i new_ob hob
              obtain ⟨hno, hnolt⟩ := cadd_eq_some hob
              simp only [Option.some.injEq, Prod.mk.injEq] at h
              obtain ⟨-, hs, -⟩ := h
              subst hs
              constructor
              · exact hWF.rate_le
              · exact hWF.cap_le
              · exact hWF.supply_lt
              · intro p hp
                rcases mem_mput hp with rfl | hp2
                · show new_ob < U128
                  omega
                rcases mem_mput hp2 with rfl | hp3
                · show new_to < U128
                  omega
                rcases mem_mput hp3 with rfl | hp4
                · simp only
                  omega
                · exact hWF.bal_lt p hp4
              · exact hWF.allow_lt
              · have e1 := mapSum_mput s.balances from_ (mget s.balances from_ 0 - value)
                have l1 := mget_le_mapSum s.balances from_
                have e2 := mapSum_mput
                  (mput s.balances from_ (mget s.balances from_ 0 - value)) to_ new_to
                have l2 := mget_le_mapSum
                  (mput s.balances from_ (mget s.balances from_ 0 - value)) to_
                have e3 := mapSum_mput
                  (mput (mput s.balances from_ (mget s.balances from_ 0 - value)) to_ new_to)
                  s.owner new_ob
                have l3 := mget_le_mapSum
                  (mput (mput s.balances from_ (mget s.balances from_ 0 - value)) to_ new_to)
                  s.owner
                have hc := hWF.conserve
                simp only
                omega
          · simp only [Option.some.injEq, Prod.mk.injEq] at h
            obtain ⟨-, hs, -⟩ := h
            subst hs
            constructor
            · exact hWF.rate_le
            · exact hWF.cap_le
            · exact hWF.supply_lt
            · intro p hp
              rcases mem_mput hp with rfl | hp2
              · show new_to < U128
                omega
              rcases mem_mput hp2 with rfl | hp3
              · simp only
                omega
              · exact hWF.bal_lt p hp3
            · exact hWF.allow_lt
            · have e1 := mapSum_mput s.balances from_ (mget s.balances from_ 0 - value)
              have l1 := mget_le_mapSum s.balances from_
              have e2 := mapSum_mput
                (mput s.balances from_ (mget s.balances from_ 0 - value)) to_ new_to
              have l2 := mget_le_mapSum
                (mput s.balances from_ (mget s.balances from_ 0 - value)) to_
              have hc := hWF.conserve
              simp only
              omega

/-- Frame conditions and event shape of the internal transfer path: it only
touches `balances`, an error leaves the state unchanged and emits exactly the
`InsufficientBalance` failure event, and a success emits one or two `Transfer`
events. -/
theorem transfer_from_to_spec {s : Entropy} {from_ to_ : AccountId} {value : Nat}
    {r : Except Error Unit} {s' : Entropy} {evs : List Event}
    (h : Entropy.transfer_from_to s from_ to_ value = some (r, s', evs)) :
    s'.allowances = s.allowances ∧ s'.owner = s.owner ∧
    s'.total_supply = s.total_supply ∧
    s'.accounts_private = s.accounts_private ∧
    s'.accounts_blacklisted = s.accounts_blacklisted ∧
    s'.basis_points_rate = s.basis_points_rate ∧ s'.maximum_fee = s.maximum_fee ∧
    (∀ e, r = Except.error e →
      s' = s ∧ e = Error.InsufficientBalance ∧
      evs = [Event.TransactionFailed Error.InsufficientBalance]) ∧
    (r = Except.ok () → evs.length = 1 ∨ evs.length = 2) := by
  simp only [Entropy.transfer_from_to, Entropy.balance_of] at h
  split at h
  · simp only [Option.some.injEq, Prod.mk.injEq] at h
    obtain ⟨hr, hs, hev⟩ := h
    subst hs
    subst hev
    subst hr
    refine ⟨rfl, rfl, rfl, rfl, rfl, rfl, rfl, ?_, ?_⟩
    · intro e he
      injection he with he
      exact ⟨rfl, he.symm, rfl⟩
    · intro hok
      simp at hok
  · split at h
    · simp at h
    · split at h
      · simp at h
      · split at h
        · simp at h
        · split at h
          · split at h
            · simp at h
            · simp only [Option.some.injEq, Prod.mk.injEq] at h
              obtain ⟨hr, hs, hev⟩ := h
              subst hs
              subst hev
              subst hr
              refine ⟨rfl, rfl, rfl, rfl, rfl, rfl, rfl, ?_, ?_⟩
              · intro e he
                simp at he
              · intro _
                simp
          · simp only [Option.some.injEq, Prod.mk.injEq] at h
            obtain ⟨hr, hs, hev⟩ := h
            subst hs
            subst hev
            subst hr
            refine ⟨rfl, rfl, rfl, rfl, rfl, rfl, rfl, ?_, ?_⟩
            · intro e he
              simp at he
            · intro _
              simp

theorem approve_WF {s : Entropy} {caller spender : AccountId} {value : Nat}
    {r : Except Error Unit} {s' : Entropy} {evs : List Event} (hWF : WF s)
    (hval : value < U128)
    (h : Entropy.approve s caller spender value = some (r, s', evs)) : WF s' := by
  simp only [Entropy.approve, Option.some.injEq, Prod.mk.injEq] at h
  obtain ⟨-, hs, -⟩ := h
  subst hs
  refine ⟨hWF.rate_le, hWF.cap_le, hWF.supply_lt, hWF.bal_lt, ?_, hWF.conserve⟩
  intro p hp
  rcases mem_mput hp with rfl | hp2
  · exact hval
  · exact hWF.allow_lt p hp2

theorem transfer_from_WF {s : Entropy} {caller from_ to_ : AccountId} {value : Nat}
    {r : Except Error Unit} {s' : Entropy} {evs : List Event} (hWF : WF s)
    (h : Entropy.transfer_from s caller from_ to_ value = some (r, s', evs)) :
    WF s' := by
  have hal : mget s.allowances (from_, caller) 0 < U128 :=
    mget_lt_of_forall U128_pos hWF.allow_lt
  simp only [Entropy.transfer_from, Entropy.allowance] at h
  split at h
  · simp only [Option.some.injEq, Prod.mk.injEq] at h
    obtain ⟨-, hs, -⟩ := h
    subst hs
    exact hWF
  · split at h
    · simp at h
    · rename_i e s1 evs1 heq
      simp only [Option.some.injEq, Prod.mk.injEq] at h
      obtain ⟨-, hs, -⟩ := h
      subst hs
      exact transfer_from_to_WF hWF heq
    · rename_i u s1 evs1 heq
      simp only [Option.some.injEq, Prod.mk.injEq] at h
      obtain ⟨-, hs, -⟩ := h
      subst hs
      have hWF1 := transfer_from_to_WF hWF heq
      refine ⟨hWF1.rate_le, hWF1.cap_le, hWF1.supply_lt, hWF1.bal_lt, ?_, hWF1.conserve⟩
      intro p hp
      rcases mem_mput hp with rfl | hp2
      · show mget s.allowances (from_, caller) 0 - value < U128
        omega
      · exact hWF1.allow_lt p hp2

theorem issue_WF {s : Entropy} {caller : AccountId} {value : Nat}
    {r : Except Error Unit} {s' : Entropy} {evs : List Event} (hWF : WF s)
    (h : Entropy.issue s caller value = some (r, s', evs)) : WF s' := by
  simp only [Entropy.issue, Entropy.balance_of] at h
  split at h
  · simp only [Option.some.injEq, Prod.mk.injEq] at h
    obtain ⟨-, hs, -⟩ := h
    subst hs
    exact hWF
  · split at h
    · simp at h
    · rename_i new_balance hnb
      split at h
      · simp at h
      · rename_i new_supply hns
        obtain ⟨hnb1, hnb2⟩ := cadd_eq_some hnb
        obtain ⟨hns1, hns2⟩ := cadd_eq_some hns
        simp only [Option.some.injEq, Prod.mk.injEq] at h
        obtain ⟨-, hs, -⟩ := h
        subst hs
        have e1 := mapSum_mput s.balances s.owner new_balance
        have l1 := mget_le_mapSum s.balances s.owner
        have hc := hWF.conserve
        refine ⟨hWF.rate_le, hWF.cap_le, ?_, ?_, hWF.allow_lt, ?_⟩
        · show new_supply < U128
          omega
        · intro p hp
          rcases mem_mput hp with rfl | hp2
          · show new_balance < U128
            omega
          · exact hWF.bal_lt p hp2
        · show new_supply = mapSum (mput s.balances s.owner new_balance)
          omega

theorem redeem_WF {s : Entropy} {caller : AccountId} {value : Nat}
    {r : Except Error Unit} {s' : Entropy} {evs : List Event} (hWF : WF s)
    (h : Entropy.redeem s caller value = some (r, s', evs)) : WF s' := by
  have hob : mget s.balances s.owner 0 < U128 :=
    mget_lt_of_forall U128_pos hWF.bal_lt
  simp only [Entropy.redeem, Entropy.balance_of] at h
  split at h
  · simp only [Option.some.injEq, Prod.mk.injEq] at h
    obtain ⟨-, hs, -⟩ := h
    subst hs
    exact hWF
  · split at h
    · simp only [Option.some.injEq, Prod.mk.injEq] at h
      obtain ⟨-, hs, -⟩ := h
      subst hs
      exact hWF
    · rename_i hblt
      split at h
      · simp at h
      · rename_i new_supply hns
        obtain ⟨hns1, hns2⟩ := csub_eq_some hns
        simp only [Option.some.injEq, Prod.mk.injEq] at h
        obtain ⟨-, hs, -⟩ := h
        subst hs
        have e1 := mapSum_mput s.balances s.owner (mget s.balances s.owner 0 - value)
        have l1 := mget_le_mapSum s.balances s.owner
        have hc := hWF.conserve
        have hsl := hWF.supply_lt
        refine ⟨hWF.rate_le, hWF.cap_le, ?_, ?_, hWF.allow_lt, ?_⟩
        · show new_supply < U128
          omega
        · intro p hp
          rcases mem_mput hp with rfl | hp2
          · show mget s.balances s.owner 0 - value < U128
            omega
          · exact hWF.bal_lt p hp2
        · show new_supply = mapSum (mput s.balances s.owner (mget s.balances s.owner 0 - value))
          omega

theorem set_params_WF {s : Entropy} {caller : AccountId} {a b : Nat}
    {r : Except Error Unit} {s' : Entropy} {evs : List Event} (hWF : WF s)
    (h : Entropy.set_params s caller a b = some (r, s', evs)) : WF s' := by
  simp only [Entropy.set_params] at h
  split at h
  · simp only [Option.some.injEq, Prod.mk.injEq] at h
    obtain ⟨-, hs, -⟩ := h
    subst hs
    exact hWF
  · simp only [Option.some.injEq, Prod.mk.injEq] at h
    obtain ⟨-, hs, -⟩ := h
    subst hs
    refine ⟨?_, ?_, hWF.supply_lt, hWF.bal_lt, hWF.allow_lt, hWF.conserve⟩
    · show (if a > 20 then 20 else a) ≤ 20
      split <;> omega
    · show (if b > 50000000 then 50000000 else b) ≤ 50000000
      split <;> omega

theorem transfer_ownership_WF {s : Entropy} {caller new_owner : AccountId}
    {r : Except Error Unit} {s' : Entropy} {evs : List Event} (hWF : WF s)
    (h : Entropy.transfer_ownership s caller new_owner = some (r, s', evs)) :
    WF s' := by
  simp only [Entropy.transfer_ownership] at h
  split at h
  · simp only [Option.some.injEq, Prod.mk.injEq] at h
    obtain ⟨-, hs, -⟩ := h
    subst hs
    exact hWF
  · split at h <;>
      (simp only [Option.some.injEq, Prod.mk.injEq] at h
       obtain ⟨-, hs, -⟩ := h
       subst hs)
    · exact ⟨hWF.rate_le, hWF.cap_le, hWF.supply_lt, hWF.bal_lt, hWF.allow_lt,
        hWF.conserve⟩
    · exact hWF

theorem set_account_private_WF {s : Entropy} {caller account : AccountId}
    {p : Bool} {r : Except Error Unit} {s' : Entropy} {evs : List Event} (hWF : WF s)
    (h : Entropy.set_account_private s caller account p = some (r, s', evs)) :
    WF s' := by
  simp only [Entropy.set_account_private] at h
  split at h <;>
    (simp only [Option.some.injEq, Prod.mk.injEq] at h
     obtain ⟨-, hs, -⟩ := h
     subst hs)
  · exact hWF
  · exact ⟨hWF.rate_le, hWF.cap_le, hWF.supply_lt, hWF.bal_lt, hWF.allow_lt,
      hWF.conserve⟩

theorem add_account_to_blacklist_WF {s : Entropy} {caller account : AccountId}
    {r : Except Error Unit} {s' : Entropy} {evs : List Event} (hWF : WF s)
    (h : Entropy.add_account_to_blacklist s caller account = some (r, s', evs)) :
    WF s' := by
  simp only [Entropy.add_account_to_blacklist] at h
  split at h <;>
    (simp only [Option.some.injEq, Prod.mk.injEq] at h
     obtain ⟨-, hs, -⟩ := h
     subst hs)
  · exact hWF
  · exact ⟨hWF.rate_le, hWF.cap_le, hWF.supply_lt, hWF.bal_lt, hWF.allow_lt,
      hWF.conserve⟩

theorem remove_account_from_blacklist_WF {s : Entropy} {caller account : AccountId}
    {r : Except Error Unit} {s' : Entropy} {evs : List Event} (hWF : WF s)
    (h : Entropy.remove_account_from_blacklist s caller account = some (r, s', evs)) :
    WF s' := by
  simp only [Entropy.remove_account_from_blacklist] at h
  split at h <;>
    (simp only [Option.some.injEq, Prod.mk.injEq] at h
     obtain ⟨-, hs, -⟩ := h
     subst hs)
  · exact hWF
  · exact ⟨hWF.rate_le, hWF.cap_le, hWF.supply_lt, hWF.bal_lt, hWF.allow_lt,
      hWF.conserve⟩

theorem destroy_black_funds_WF {s : Entropy} {caller account : AccountId}
    {r : Except Error Unit} {s' : Entropy} {evs : List Event} (hWF : WF s)
    (h : Entropy.destroy_black_funds s caller account = some (r, s', evs)) :
    WF s' := by
  simp only [Entropy.destroy_black_funds, Entropy.balance_of] at h
  split at h
  · simp only [Option.some.injEq, Prod.mk.injEq] at h
    obtain ⟨-, hs, -⟩ := h
    subst hs
    exact hWF
  · split at h
    · simp only [Option.some.injEq, Prod.mk.injEq] at h
      obtain ⟨-, hs, -⟩ := h
      subst hs
      exact hWF
    · split at h
      · simp at h
      · rename_i new_supply hns
        obtain ⟨hns1, hns2⟩ := csub_eq_some hns
        simp only [Option.some.injEq, Prod.mk.injEq] at h
        obtain ⟨-, hs, -⟩ := h
        subst hs
        have e1 := mapSum_mput s.balances account 0
        have l1 := mget_le_mapSum s.balances account
        have hc := hWF.conserve
        have hsl := hWF.supply_lt
        refine ⟨hWF.rate_le, hWF.cap_le, ?_, ?_, hWF.allow_lt, ?_⟩
        · show new_supply < U128
          omega
        · intro p hp
          rcases mem_mput hp with rfl | hp2
          · show (0 : Nat) < U128
            exact U128_pos
          · exact hWF.bal_lt p hp2
        · show new_supply = mapSum (mput s.balances account 0)
          omega

/-- Every accepted or rejected command preserves the ledger invariant. -/
theorem step_WF {s : Entropy} {op : Op} {r : Except Error Unit} {s' : Entropy}
    {evs : List Event} (hWF : WF s) (hop : op.wf)
    (h : step s op = some (r, s', evs)) : WF s' := by
  cases op with
  | transfer caller to_ value =>
    exact transfer_from_to_WF hWF (by simpa [step, Entropy.transfer] using h)
  | approve caller spender value =>
    exact approve_WF hWF hop (by simpa [step] using h)
  | transfer_from caller from_ to_ value =>
    exact transfer_from_WF hWF (by simpa [step] using h)
  | issue caller value => exact issue_WF hWF (by simpa [step] using h)
  | redeem caller value => exact redeem_WF hWF (by simpa [step] using h)
  | set_params caller a b => exact set_params_WF hWF (by simpa [step] using h)
  | transfer_ownership caller new_owner =>
    exact transfer_ownership_WF hWF (by simpa [step] using h)
  | set_account_private caller account p =>
    exact set_account_private_WF hWF (by simpa [step] using h)
  | add_account_to_blacklist caller account =>
    exact add_account_to_blacklist_WF hWF (by simpa [step] using h)
  | remove_account_from_blacklist caller account =>
    exact remove_account_from_blacklist_WF hWF (by simpa [step] using h)
  | destroy_black_funds caller account =>
    exact destroy_black_funds_WF hWF (by simpa [step] using h)

/-- Every reachable ledger state satisfies the invariant. -/
theorem reachable_WF {s : Entropy} (h : Reachable s) : WF s := by
  induction h with
  | constructed caller initial_supply name symbol decimals hlt => exact construct_WF hlt
  | step_ok hs hop hstep ih => exact step_WF ih hop hstep

/-! ### Classification of commands -/

/-- The caller identity of a command. -/
def Op.caller : Op → AccountId
  | Op.transfer caller _ _ => caller
  | Op.approve caller _ _ => caller
  | Op.transfer_from caller _ _ _ => caller
  | Op.issue caller _ => caller
  | Op.redeem caller _ => caller
  | Op.set_params caller _ _ => caller
  | Op.transfer_ownership caller _ => caller
  | Op.set_account_private caller _ _ => caller
  | Op.add_account_to_blacklist caller _ => caller
  | Op.remove_account_from_blacklist caller _ => caller
  | Op.destroy_black_funds caller _ => caller

/-- The owner-only (privileged) commands. -/
def Op.privileged : Op → Bool
  | Op.set_params _ _ _ => true
  | Op.transfer_ownership _ _ => true
  | Op.issue _ _ => true
  | Op.redeem _ _ => true
  | Op.set_account_private _ _ _ => true
  | Op.add_account_to_blacklist _ _ => true
  | Op.remove_account_from_blacklist _ _ => true
  | Op.destroy_black_funds _ _ => true
  | _ => false

/-- The commands that run the fee-charging transfer path. -/
def Op.isTransferOp : Op → Bool
  | Op.transfer _ _ _ => true
  | Op.transfer_from _ _ _ _ => true
  | _ => false

/-- The ownership-transfer command. -/
def Op.isOwnershipOp : Op → Bool
  | Op.transfer_ownership _ _ => true
  | _ => false

theorem some_triple_inj {a : Except Error Unit} {b : Entropy} {c : List Event}
    {r : Except Error Unit} {s' : Entropy} {evs : List Event}
    (h : (some (a, b, c) : Option CallResult) = some (r, s', evs)) :
    a = r ∧ b = s' ∧ c = evs := by
  simp only [Option.some.injEq, Prod.mk.injEq] at h
  exact h

/-- Error paths return the state unchanged with exactly one `TransactionFailed`
event carrying the returned error; success paths emit no event for
`transfer_ownership`, one or two events on the transfer path, and exactly one
event everywhere else. -/
theorem step_spec {s : Entropy} {op : Op} {r : Except Error Unit} {s' : Entropy}
    {evs : List Event} (h : step s op = some (r, s', evs)) :
    (∀ e, r = Except.error e → s' = s ∧ evs = [Event.TransactionFailed e]) ∧
    (r = Except.ok () →
      (op.isOwnershipOp = true → evs.length = 0) ∧
      (op.isTransferOp = true → evs.length = 1 ∨ evs.length = 2) ∧
      (op.isOwnershipOp = false → op.isTransferOp = false → evs.length = 1)) := by
  cases op with
  | transfer caller to_ value =>
    simp only [step, Entropy.transfer] at h
    have hspec := transfer_from_to_spec h
    constructor
    · intro e he
      obtain ⟨hs, hee, hev⟩ := hspec.2.2.2.2.2.2.2.1 e he
      subst hee
      exact ⟨hs, hev⟩
    · intro hok
      refine ⟨?_, ?_, ?_⟩
      · intro habs
        simp [Op.isOwnershipOp] at habs
      · intro _
        exact hspec.2.2.2.2.2.2.2.2 hok
      · intro _ habs
        simp [Op.isTransferOp] at habs
  | approve caller spender value =>
    simp only [step, Entropy.approve] at h
    obtain ⟨hr, hs, hev⟩ := some_triple_inj h
    subst hr
    subst hs
    subst hev
    constructor
    · intro e he
      simp at he
    · intro _
      refine ⟨?_, ?_, fun _ _ => rfl⟩
      · intro habs
        simp [Op.isOwnershipOp] at habs
      · intro habs
        simp [Op.isTransferOp] at habs
  | transfer_from caller from_ to_ value =>
    simp only [step, Entropy.transfer_from, Entropy.allowance] at h
    split at h
    · obtain ⟨hr, hs, hev⟩ := some_triple_inj h
      subst hr
      subst hs
      subst hev
      constructor
      · intro e he
        injection he with he
        subst he
        exact ⟨rfl, rfl⟩
      · intro hok
        simp at hok
    · split at h
      · simp at h
      · rename_i e1 s1 evs1 heq
        obtain ⟨hr, hs, hev⟩ := some_triple_inj h
        subst hr
        subst hs
        subst hev
        have hspec := transfer_from_to_spec heq
        constructor
        · intro e he
          injection he with he
          obtain ⟨hs2, hee, hev2⟩ := hspec.2.2.2.2.2.2.2.1 e1 rfl
          refine ⟨hs2, ?_⟩
          rw [← he, hee]
          exact hev2
        · intro hok
          simp at hok
      · rename_i u s1 evs1 heq
        obtain ⟨hr, hs, hev⟩ := some_triple_inj h
        subst hr
        subst hs
        subst hev
        have hspec := transfer_from_to_spec heq
        constructor
        · intro e he
          simp at he
        · intro _
          refine ⟨?_, ?_, ?_⟩
          · intro habs
            simp [Op.isOwnershipOp] at habs
          · intro _
            exact hspec.2.2.2.2.2.2.2.2 rfl
          · intro _ habs
            simp [Op.isTransferOp] at habs
  | issue caller value =>
    simp only [step, Entropy.issue] at h
    split at h
    · obtain ⟨hr, hs, hev⟩ := some_triple_inj h
      subst hr
      subst hs
      subst hev
      constructor
      · intro e he
        injection he with he
        subst he
        exact ⟨rfl, rfl⟩
      · intro hok
        simp at hok
    · split at h
      · simp at h
      · split at h
        · simp at h
        · obtain ⟨hr, hs, hev⟩ := some_triple_inj h
          subst hr
          subst hs
          subst hev
          constructor
          · intro e he
            simp at he
          · intro _
            refine ⟨?_, ?_, fun _ _ => rfl⟩
            · intro habs
              simp [Op.isOwnershipOp] at habs
            · intro habs
              simp [Op.isTransferOp] at habs
  | redeem caller value =>
    simp only [step, Entropy.redeem] at h
    split at h
    · obtain ⟨hr, hs, hev⟩ := some_triple_inj h
      subst hr
      subst hs
      subst hev
      constructor
      · intro e he
        injection he with he
        subst he
        exact ⟨rfl, rfl⟩
      · intro hok
        simp at hok
    · split at h
      · obtain ⟨hr, hs, hev⟩ := some_triple_inj h
        subst hr
        subst hs
        subst hev
        constructor
        · intro e he
          injection he with he
          subst he
          exact ⟨rfl, rfl⟩
        · intro hok
          simp at hok
      · split at h
        · simp at h
        · obtain ⟨hr, hs, hev⟩ := some_triple_inj h
          subst hr
          subst hs
          subst hev
          constructor
          · intro e he
            simp at he
          · intro _
            refine ⟨?_, ?_, fun _ _ => rfl⟩
            · intro habs
              simp [Op.isOwnershipOp] at habs
            · intro habs
              simp [Op.isTransferOp] at habs
  | set_params caller a b =>
    simp only [step, Entropy.set_params] at h
    split at h
    · obtain ⟨hr, hs, hev⟩ := some_triple_inj h
      subst hr
      subst hs
      subst hev
      constructor
      · intro e he
        injection he with he
        subst he
        exact ⟨rfl, rfl⟩
      · intro hok
        simp at hok
    · obtain ⟨hr, hs, hev⟩ := some_triple_inj h
      subst hr
      subst hs
      subst hev
      constructor
      · intro e he
        simp at he
      · intro _
        refine ⟨?_, ?_, fun _ _ => rfl⟩
        · intro habs
          simp [Op.isOwnershipOp] at habs
        · intro habs
          simp [Op.isTransferOp] at habs
  | transfer_ownership caller new_owner =>
    simp only [step, Entropy.transfer_ownership] at h
    split at h
    · obtain ⟨hr, hs, hev⟩ := some_triple_inj h
      subst hr
      subst hs
      subst hev
      constructor
      · intro e he
        injection he with he
        subst he
        exact ⟨rfl, rfl⟩
      · intro hok
        simp at hok
    · split at h <;>
        (obtain ⟨hr, hs, hev⟩ := some_triple_inj h
         subst hr
         subst hs
         subst hev
         constructor
         · intro e he
           simp at he
         · intro _
           refine ⟨fun _ => rfl, ?_, ?_⟩
           · intro habs
             simp [Op.isTransferOp] at habs
           · intro habs
             simp [Op.isOwnershipOp] at habs)
  | set_account_private caller account p =>
    simp only [step, Entropy.set_account_private] at h
    split at h
    · obtain ⟨hr, hs, hev⟩ := some_triple_inj h
      subst hr
      subst hs
      subst hev
      constructor
      · intro e he
        injection he with he
        subst he
        exact ⟨rfl, rfl⟩
      · intro hok
        simp at hok
    · obtain ⟨hr, hs, hev⟩ := some_triple_inj h
      subst hr
      subst hs
      subst hev
      constructor
      · intro e he
        simp at he
      · intro _
        refine ⟨?_, ?_, fun _ _ => rfl⟩
        · intro habs
          simp [Op.isOwnershipOp] at habs
        · intro habs
          simp [Op.isTransferOp] at habs
  | add_account_to_blacklist caller account =>
    simp only [step, Entropy.add_account_to_blacklist] at h
    split at h
    · obtain ⟨hr, hs, hev⟩ := some_triple_inj h
      subst hr
      subst hs
      subst hev
      constructor
      · intro e he
        injection he with he
        subst he
        exact ⟨rfl, rfl⟩
      · intro hok
        simp at hok
    · obtain ⟨hr, hs, hev⟩ := some_triple_inj h
      subst hr
      subst hs
      subst hev
      constructor
      · intro e he
        simp at he
      · intro _
        refine ⟨?_, ?_, fun _ _ => rfl⟩
        · intro habs
          simp [Op.isOwnershipOp] at habs
        · intro habs
          simp [Op.isTransferOp] at habs
  | remove_account_from_blacklist caller account =>
    simp only [step, Entropy.remove_account_from_blacklist] at h
    split at h
    · obtain ⟨hr, hs, hev⟩ := some_triple_inj h
      subst hr
      subst hs
      subst hev
      constructor
      · intro e he
        injection he with he
        subst he
        exact ⟨rfl, rfl⟩
      · intro hok
        simp at hok
    · obtain ⟨hr, hs, hev⟩ := some_triple_inj h
      subst hr
      subst hs
      subst hev
      constructor
      · intro e he
        simp at he
      · intro _
        refine ⟨?_, ?_, fun _ _ => rfl⟩
        · intro habs
          simp [Op.isOwnershipOp] at habs
        · intro habs
          simp [Op.isTransferOp] at habs
  | destroy_black_funds caller account =>
    simp only [step, Entropy.destroy_black_funds] at h
    split at h
    · obtain ⟨hr, hs, hev⟩ := some_triple_inj h
      subst hr
      subst hs
      subst hev
      constructor
      · intro e he
        injection he with he
        subst he
        exact ⟨rfl, rfl⟩
      · intro hok
        simp at hok
    · split at h
      · obtain ⟨hr, hs, hev⟩ := some_triple_inj h
        subst hr
        subst hs
        subst hev
        constructor
        · intro e he
          injection he with he
          subst he
          exact ⟨rfl, rfl⟩
        · intro hok
          simp at hok
      · split at h
        · simp at h
        · obtain ⟨hr, hs, hev⟩ := some_triple_inj h
          subst hr
          subst hs
          subst hev
          constructor
          · intro e he
            simp at he
          · intro _
            refine ⟨?_, ?_, fun _ _ => rfl⟩
            · intro habs
              simp [Op.isOwnershipOp] at habs
            · intro habs
              simp [Op.isTransferOp] at habs

/-! ### Concrete states used by the witnesses -/

/-- The ledger freshly constructed by account 1 with supply 100 (the source's
default name, symbol and decimals). -/
def E0 : Entropy := (construct 1 100 "Entropy Coin" "ENT" 6).1

/-- `E0` after account 1 approves an allowance of 10 to account 2. -/
def EA : Entropy := { E0 with allowances := [((1, 2), 10)] }

/-- `EA` after account 2 delegate-transfers 10 from account 1 to account 3. -/
def EB : Entropy := { EA with balances := [(1, 90), (3, 10)], allowances := [((1, 2), 0)] }

/-- `E0` after the owner issues 50 more units. -/
def E1 : Entropy := { E0 with total_supply := 150, balances := [(1, 150)] }

/-! ### The claims -/

/-- Claim C1: conservation of value — starting from a constructed ledger, after
every sequence of accepted (`Ok`-returning) operations among the eleven ledger
commands, the total supply equals the sum of all account balances. -/
theorem conservation_of_value (s : Entropy) (h : Reachable s) :
    s.total_supply = mapSum s.balances :=
  (reachable_WF h).conserve

theorem conservation_of_value_witness : E1.total_supply = mapSum E1.balances :=
  conservation_of_value E1
    (@Reachable.step_ok (construct 1 100 "Entropy Coin" "ENT" 6).1 E1
      (Op.issue 1 50) [Event.Issue 50]
      (Reachable.constructed 1 100 "Entropy Coin" "ENT" 6 (by decide))
      (by decide) (by rfl))

/-- Claim C2: fee bound — for every transfer value under parameters with
`rate ≤ 20` and `cap ≤ 50_000_000`, the fee computed by the transfer path
satisfies `0 ≤ fee ≤ min cap value` and `net_amount + fee = value`. -/
theorem fee_bound (value rate cap fee : Nat) (hrate : rate ≤ 20)
    (hcap : cap ≤ 50000000)
    (hfee : Entropy.compute_fee value rate cap = some fee) :
    0 ≤ fee ∧ fee ≤ min cap value ∧ (value - fee) + fee = value := by
  obtain ⟨h1, h2⟩ := compute_fee_le hrate hfee
  exact ⟨Nat.zero_le _, by omega, by omega⟩

theorem fee_bound_witness :
    0 ≤ 10000 ∧ 10000 ≤ min 50000000 10000000 ∧
      (10000000 - 10000) + 10000 = 10000000 :=
  fee_bound 10000000 10 50000000 10000 (by decide) (by decide) (by rfl)

/-- Claim C3: in `transfer_from(from, to, value)` the caller's allowance from
`from` is checked before the balance of `from`: whenever the allowance is below
`value` the call returns `InsufficientAllowance`, for every state — in
particular even when `balance_of from < value` as well. -/
theorem allowance_checked_before_balance (s : Entropy) (caller from_ to_ : AccountId)
    (value : Nat) (h : Entropy.allowance s from_ caller < value) :
    Entropy.transfer_from s caller from_ to_ value =
      some (Except.error Error.InsufficientAllowance, s,
        [Event.TransactionFailed Error.InsufficientAllowance]) := by
  simp only [Entropy.transfer_from]
  rw [if_pos h]

theorem allowance_checked_before_balance_witness :
    Entropy.balance_of E0 2 < 10 ∧
    Entropy.transfer_from E0 3 2 4 10 =
      some (Except.error Error.InsufficientAllowance, E0,
        [Event.TransactionFailed Error.InsufficientAllowance]) :=
  ⟨by decide, allowance_checked_before_balance E0 3 2 4 10 (by decide)⟩

/-- Claim C4: allowance accounting of delegated transfer — a successful
`transfer_from` decrements the caller's allowance from `from` by exactly
`value`; a failing one leaves it unchanged. -/
theorem transfer_from_allowance_accounting (s : Entropy) (caller from_ to_ : AccountId)
    (value : Nat) (r : Except Error Unit) (s' : Entropy) (evs : List Event)
    (h : Entropy.transfer_from s caller from_ to_ value = some (r, s', evs)) :
    (r = Except.ok () →
      value ≤ Entropy.allowance s from_ caller ∧
      Entropy.allowance s' from_ caller = Entropy.allowance s from_ caller - value) ∧
    (∀ e, r = Except.error e →
      Entropy.allowance s' from_ caller = Entropy.allowance s from_ caller) := by
  simp only [Entropy.transfer_from, Entropy.allowance] at h
  split at h
  · obtain ⟨hr, hs, hev⟩ := some_triple_inj h
    subst hr
    subst hs
    subst hev
    constructor
    · intro hok
      simp at hok
    · intro e he
      rfl
  · rename_i hge
    split at h
    · simp at h
    · rename_i e1 s1 evs1 heq
      obtain ⟨hr, hs, hev⟩ := some_triple_inj h
      subst hr
      subst hs
      subst hev
      have hall := (transfer_from_to_spec heq).1
      constructor
      · intro hok
        simp at hok
      · intro e he
        show mget s1.allowances (from_, caller) 0 = mget s.allowances (from_, caller) 0
        rw [hall]
    · rename_i u s1 evs1 heq
      obtain ⟨hr, hs, hev⟩ := some_triple_inj h
      subst hr
      subst hs
      subst hev
      constructor
      · intro _
        constructor
        · show value ≤ mget s.allowances (from_, caller) 0
          omega
        · show mget (mput s1.allowances (from_, caller)
              (mget s.allowances (from_, caller) 0 - value)) (from_, caller) 0
            = mget s.allowances (from_, caller) 0 - value
          exact mget_mput_self _ _ _ _
      · intro e he
        simp at he

theorem transfer_from_allowance_accounting_witness :
    10 ≤ Entropy.allowance EA 1 2 ∧
    Entropy.allowance EB 1 2 = Entropy.allowance EA 1 2 - 10 :=
  (transfer_from_allowance_accounting EA 2 1 3 10 (Except.ok ()) EB
    [Event.Transfer (some 1) (some 3) 10] (by rfl)).1 rfl

/-- Claim C5: access gating with no side effects — every privileged command
invoked by a caller different from the owner returns `PermissionDenied`,
returns the state completely unchanged, and emits exactly the failure event. -/
theorem privileged_non_owner_rejected (s : Entropy) (op : Op)
    (hpriv : op.privileged = true) (hc : op.caller ≠ s.owner) :
    step s op = some (Except.error Error.PermissionDenied, s,
      [Event.TransactionFailed Error.PermissionDenied]) := by
  cases op with
  | transfer caller to_ value => simp [Op.privileged] at hpriv
  | approve caller spender value => simp [Op.privileged] at hpriv
  | transfer_from caller from_ to_ value => simp [Op.privileged] at hpriv
  | issue caller value =>
    simp only [Op.caller] at hc
    simp only [step, Entropy.issue]
    rw [if_pos hc]
  | redeem caller value =>
    simp only [Op.caller] at hc
    simp only [step, Entropy.redeem]
    rw [if_pos hc]
  | set_params caller a b =>
    simp only [Op.caller] at hc
    simp only [step, Entropy.set_params]
    rw [if_pos hc]
  | transfer_ownership caller new_owner =>
    simp only [Op.caller] at hc
    simp only [step, Entropy.transfer_ownership]
    rw [if_pos hc]
  | set_account_private caller account p =>
    simp only [Op.caller] at hc
    simp only [step, Entropy.set_account_private]
    rw [if_pos hc]
  | add_account_to_blacklist caller account =>
    simp only [Op.caller] at hc
    simp only [step, Entropy.add_account_to_blacklist]
    rw [if_pos hc]
  | remove_account_from_blacklist caller account =>
    simp only [Op.caller] at hc
    simp only [step, Entropy.remove_account_from_blacklist]
    rw [if_pos hc]
  | destroy_black_funds caller account =>
    simp only [Op.caller] at hc
    simp only [step, Entropy.destroy_black_funds]
    rw [if_pos hc]

theorem privileged_non_owner_rejected_witness :
    step E0 (Op.issue 2 5) = some (Except.error Error.PermissionDenied, E0,
      [Event.TransactionFailed Error.PermissionDenied]) :=
  privileged_non_owner_rejected E0 (Op.issue 2 5) (by decide) (by decide)

/-- Claim C6, counterexample: a successful, state-changing `transfer_ownership`
call emits no event at all, so it is not paired with an event describing the
mutation. -/
theorem event_per_mutation_counterexample :
    E0.owner = 1 ∧
    step E0 (Op.transfer_ownership 1 2) =
      some (Except.ok (), { E0 with owner := 2 }, ([] : List Event)) :=
  ⟨rfl, rfl⟩

/-- Claim C6, amended: every operation that returns `Ok` emits exactly one event
describing it, with the transfer path additionally allowed a second `Transfer`
event for the fee — except `transfer_ownership`, which emits no event at all on
success, even when it changes the owner. -/
theorem event_count_on_success (s : Entropy) (op : Op) (s' : Entropy)
    (evs : List Event) (h : step s op = some (Except.ok (), s', evs)) :
    (op.isOwnershipOp = true → evs.length = 0) ∧
    (op.isTransferOp = true → evs.length = 1 ∨ evs.length = 2) ∧
    (op.isOwnershipOp = false → op.isTransferOp = false → evs.length = 1) :=
  (step_spec h).2 rfl

theorem event_count_on_success_witness :
    (Op.isOwnershipOp (Op.approve 1 2 10) = true →
      ([Event.Approval 1 2 10] : List Event).length = 0) ∧
    (Op.isTransferOp (Op.approve 1 2 10) = true →
      ([Event.Approval 1 2 10] : List Event).length = 1 ∨
      ([Event.Approval 1 2 10] : List Event).length = 2) ∧
    (Op.isOwnershipOp (Op.approve 1 2 10) = false →
      Op.isTransferOp (Op.approve 1 2 10) = false →
      ([Event.Approval 1 2 10] : List Event).length = 1) :=
  event_count_on_success E0 (Op.approve 1 2 10) EA [Event.Approval 1 2 10] (by rfl)

/-- Claim C7: failure audit trail — whenever any command returns an error,
exactly one `TransactionFailed` event carrying that error is emitted, and the
state is returned unchanged. -/
theorem error_audit_trail (s : Entropy) (op : Op) (e : Error) (s' : Entropy)
    (evs : List Event) (h : step s op = some (Except.error e, s', evs)) :
    evs = [Event.TransactionFailed e] ∧ s' = s := by
  obtain ⟨h1, -⟩ := step_spec h
  obtain ⟨hs, hev⟩ := h1 e rfl
  exact ⟨hev, hs⟩

theorem error_audit_trail_witness :
    ([Event.TransactionFailed Error.InsufficientBalance] : List Event) =
      [Event.TransactionFailed Error.InsufficientBalance] ∧ E0 = E0 :=
  error_audit_trail E0 (Op.redeem 1 200) Error.InsufficientBalance E0
    [Event.TransactionFailed Error.InsufficientBalance] (by rfl)

/-- Claim C8: null-owner no-op — when the owner calls `transfer_ownership`, the
call returns `Ok`; with the designated null identity as the argument the owner
is unchanged, and with any other identity the owner becomes the argument. -/
theorem transfer_ownership_null_noop (s : Entropy) (new_owner : AccountId) :
    Entropy.transfer_ownership s s.owner new_owner =
      some (Except.ok (),
        (if new_owner = nullAccountId then s else { s with owner := new_owner }),
        ([] : List Event)) := by
  by_cases hn : new_owner = nullAccountId
  · simp [Entropy.transfer_ownership, hn]
  · simp [Entropy.transfer_ownership, hn]

/-- Claim C9: parameter clamping — `set_params` called by the owner always
succeeds, stores `min` of each argument with its ceiling, and the `Params`
event carries exactly the post-clamp values; consequently the stored parameters
respect the ceilings in every reachable state. -/
theorem set_params_clamping :
    (∀ (s : Entropy) (a b : Nat),
      Entropy.set_params s s.owner a b =
        some (Except.ok (),
          { s with basis_points_rate := min a 20, maximum_fee := min b 50000000 },
          [Event.Params (min a 20) (min b 50000000)])) ∧
    (∀ s : Entropy, Reachable s →
      s.basis_points_rate ≤ 20 ∧ s.maximum_fee ≤ 50000000) := by
  constructor
  · intro s a b
    simp only [Entropy.set_params]
    rw [if_neg (by simp)]
    have h1 : (if a > 20 then 20 else a) = min a 20 := by
      split <;> omega
    have h2 : (if b > 50000000 then 50000000 else b) = min b 50000000 := by
      split <;> omega
    rw [h1, h2]
  · intro s hs
    exact ⟨(reachable_WF hs).rate_le, (reachable_WF hs).cap_le⟩

theorem set_params_clamping_witness :
    Entropy.set_params E0 E0.owner 100 60000000 =
      some (Except.ok (),
        { E0 with basis_points_rate := min 100 20, maximum_fee := min 60000000 50000000 },
        [Event.Params (min 100 20) (min 60000000 50000000)]) ∧
    (E0.basis_points_rate ≤ 20 ∧ E0.maximum_fee ≤ 50000000) :=
  ⟨set_params_clamping.1 E0 100 60000000,
   set_params_clamping.2 E0
     (Reachable.constructed 1 100 "Entropy Coin" "ENT" 6 (by decide))⟩

/-- Claim C10: self-delegation requires allowance — a caller delegating from
their own account still fails with `InsufficientAllowance` when they have not
approved themselves at least `value`, no matter how large their balance is. -/
theorem self_delegation_requires_allowance (s : Entropy) (caller to_ : AccountId)
    (value : Nat) (hv : 0 < value)
    (hal : Entropy.allowance s caller caller < value) :
    Entropy.transfer_from s caller caller to_ value =
      some (Except.error Error.InsufficientAllowance, s,
        [Event.TransactionFailed Error.InsufficientAllowance]) := by
  simp only [Entropy.transfer_from]
  rw [if_pos hal]

theorem self_delegation_requires_allowance_witness :
    10 ≤ Entropy.balance_of E0 1 ∧
    Entropy.transfer_from E0 1 1 2 10 =
      some (Except.error Error.InsufficientAllowance, E0,
        [Event.TransactionFailed Error.InsufficientAllowance]) :=
  ⟨by decide, self_delegation_requires_allowance E0 1 2 10 (by decide) (by decide)⟩
